import Mathlib

/-!
# Verification of the Zynq platform-driver session component

Shallow embedding of `src/drivers/platform/zynq/session_component.h`
(Genode platform driver, Zynq variant) and proofs about it.

The header contains the inline bodies of the `Dma_buffer` constructor, the
`Control_device_domain` constructor and destructor, and the
`_with_device_domain` helper; these are translated directly from the source.
The bodies of `acquire_device`, `release_device`, `alloc_dma_buffer`,
`free_dma_buffer`, `dma_addr` and `update_policy` live in the session
component's translation unit, which is not part of the source tree here;
those operations are modelled from the specification, as marked on each
definition.

Conventions of the embedding:
* capabilities (`Ram_dataspace_capability`, `Device_capability`) are numeric
  handles (`Nat`);
* a translation table (`Control_device::Domain`) is a multiset of ranges —
  `add_range` inserts a range, `remove_range` withdraws one occurrence;
* registries (`Registry<T>`) are lists in enrollment order, and `for_each`
  is a fold over that list.
-/

/-- A translation range `{ addr, size }` as passed to `add_range` /
`remove_range` (see the calls in the `Control_device_domain` constructor and
destructor). -/
structure Range where
  addr : Nat
  size : Nat
deriving DecidableEq, Repr

/-- `Session_component::Dma_buffer` (header lines 102-112): registry element
holding the backing RAM capability, the bus address `dma_addr` and the
size. -/
structure Dma_buffer where
  cap : Nat
  dma_addr : Nat
  size : Nat
deriving DecidableEq, Repr

/-- Modelled from the spec: the translation-domain primitive behind
`Control_device::Domain` (`control_device.h` is not under `src/`).  Per §6 a
domain offers `add_range(base, size)` and `remove_range(base, size)` on its
translation table and is identified by the control device's name
(`device_name()` in `_with_device_domain`). -/
structure Domain where
  device_name : String
  ranges : Multiset Range
deriving DecidableEq

/-- Modelled from the spec: `add_range` inserts a range into the domain's
translation table. -/
def Domain.add_range (d : Domain) (r : Range) : Domain :=
  { d with ranges := r ::ₘ d.ranges }

/-- Modelled from the spec: `remove_range` withdraws one occurrence of a
range from the domain's translation table. -/
def Domain.remove_range (d : Domain) (r : Range) : Domain :=
  { d with ranges := d.ranges.erase r }

/-- `Session_component::Control_device_domain` constructor (header lines
119-130): the base domain starts with an empty translation table, then for
each DMA buffer currently in the session's buffer registry the range
`{ dma_buf.dma_addr, dma_buf.size }` is added via `add_range`. -/
def Control_device_domain.construct (dma_buffers : List Dma_buffer)
    (dn : String) : Domain :=
  dma_buffers.foldl (fun d b => d.add_range ⟨b.dma_addr, b.size⟩)
    { device_name := dn, ranges := 0 }

/-- The range a DMA buffer contributes to a domain. -/
def Dma_buffer.range (b : Dma_buffer) : Range :=
  ⟨b.dma_addr, b.size⟩

lemma foldl_add_range (bufs : List Dma_buffer) (d : Domain) :
    bufs.foldl (fun d b => d.add_range ⟨b.dma_addr, b.size⟩) d
      = { d with ranges := d.ranges + ↑(bufs.map Dma_buffer.range) } := by
  induction bufs generalizing d with
  | nil => simp
  | cons b t ih =>
      rw [List.foldl_cons, ih]
      simp only [Domain.add_range, Dma_buffer.range, List.map_cons]
      rw [← Multiset.cons_coe, Multiset.add_cons, Multiset.cons_add]

lemma construct_device_name (bufs : List Dma_buffer) (dn : String) :
    (Control_device_domain.construct bufs dn).device_name = dn := by
  simp [Control_device_domain.construct, foldl_add_range]

lemma construct_ranges (bufs : List Dma_buffer) (dn : String) :
    (Control_device_domain.construct bufs dn).ranges
      = ↑(bufs.map Dma_buffer.range) := by
  simp [Control_device_domain.construct, foldl_add_range]

/-- C2: when a `Control_device_domain` is created for this session, every
DMA buffer currently present in the session's DMA buffer registry is
inserted as a translation range; after construction the new domain contains
exactly the ranges `{dma_addr, size}` of every registered buffer. -/
theorem construct_domain_contains_exactly_buffer_ranges
    (bufs : List Dma_buffer) (dn : String) :
    (Control_device_domain.construct bufs dn).device_name = dn ∧
    (Control_device_domain.construct bufs dn).ranges
      = ↑(bufs.map (fun b => (⟨b.dma_addr, b.size⟩ : Range))) := by
  refine ⟨construct_device_name bufs dn, ?_⟩
  rw [construct_ranges]
  rfl

/-- Events of a `Control_device_domain` teardown. -/
inductive Domain_event where
  | remove_range (r : Range)
  | release_resources
deriving DecidableEq, Repr

/-- `~Control_device_domain()` as an event trace (header lines 132-137): the
destructor body removes each registered DMA buffer's range via
`remove_range`; afterwards the base-class destructor runs (C++ destroys base
classes after the derived destructor body) and releases the domain's
translation resources.  The base-class teardown itself is modelled from the
spec, since `control_device.h` is not under `src/`. -/
def Control_device_domain.destruct_events
    (dma_buffers : List Dma_buffer) : List Domain_event :=
  dma_buffers.foldl
    (fun evs b => evs ++ [Domain_event.remove_range ⟨b.dma_addr, b.size⟩]) []
    ++ [Domain_event.release_resources]

/-- Observable teardown state of a domain: which ranges are still mapped in
its translation table and whether its resources were already freed. -/
structure Teardown_state where
  mapped : Multiset Range
  freed : Bool
deriving DecidableEq

/-- Effect of one teardown event on the observable state. -/
def Teardown_state.apply (st : Teardown_state) (e : Domain_event) :
    Teardown_state :=
  match e with
  | .remove_range r => { st with mapped := st.mapped.erase r }
  | .release_resources => { st with freed := true }

lemma foldl_snoc_eq_map {α β : Type} (f : α → β) (l : List α)
    (acc : List β) :
    l.foldl (fun evs x => evs ++ [f x]) acc = acc ++ l.map f := by
  induction l generalizing acc with
  | nil => simp
  | cons x t ih => simp [ih]

lemma destruct_events_eq (bufs : List Dma_buffer) :
    Control_device_domain.destruct_events bufs
      = (bufs.map Dma_buffer.range).map Domain_event.remove_range
        ++ [Domain_event.release_resources] := by
  simp [Control_device_domain.destruct_events, foldl_snoc_eq_map,
    List.map_map, Dma_buffer.range, Function.comp]

lemma apply_remove_events_freed (rs : List Range) (st : Teardown_state) :
    ((rs.map Domain_event.remove_range).foldl Teardown_state.apply st).freed
      = st.freed := by
  induction rs generalizing st with
  | nil => rfl
  | cons r t ih => simp [ih, Teardown_state.apply]

lemma apply_remove_events_mapped (rs : List Range) (st : Teardown_state) :
    ((rs.map Domain_event.remove_range).foldl Teardown_state.apply st).mapped
      = rs.foldl (fun m r => m.erase r) st.mapped := by
  induction rs generalizing st with
  | nil => rfl
  | cons r t ih => simp [ih, Teardown_state.apply]

lemma foldl_erase_self {α : Type} [DecidableEq α] (l : List α) :
    l.foldl (fun m x => Multiset.erase m x) (↑l : Multiset α) = 0 := by
  induction l with
  | nil => rfl
  | cons a t ih =>
      rw [List.foldl_cons, ← Multiset.cons_coe, Multiset.erase_cons_head]
      exact ih

lemma destruct_final_state (bufs : List Dma_buffer) (dn : String) :
    ((Control_device_domain.destruct_events bufs).foldl Teardown_state.apply
        ⟨(Control_device_domain.construct bufs dn).ranges, false⟩)
      = ⟨0, true⟩ := by
  rw [destruct_events_eq, construct_ranges, List.foldl_append]
  simp only [List.foldl_cons, List.foldl_nil, Teardown_state.apply]
  rw [apply_remove_events_mapped, foldl_erase_self]

/-- C3: over the destructor's event trace of a `Control_device_domain`,
every registered DMA buffer's translation range is withdrawn, and the
domain's translation resources are only released after all ranges have been
withdrawn — at no prefix of the trace are the resources freed while a
buffer range is still mapped. -/
theorem destruct_withdraws_ranges_before_release
    (bufs : List Dma_buffer) (dn : String) (n : Nat) :
    (((((Control_device_domain.destruct_events bufs).take n).foldl
          Teardown_state.apply
          ⟨(Control_device_domain.construct bufs dn).ranges, false⟩).freed
        = true) →
      ((((Control_device_domain.destruct_events bufs).take n).foldl
          Teardown_state.apply
          ⟨(Control_device_domain.construct bufs dn).ranges, false⟩).mapped
        = 0)) ∧
    ((Control_device_domain.destruct_events bufs).foldl Teardown_state.apply
        ⟨(Control_device_domain.construct bufs dn).ranges, false⟩).freed
      = true ∧
    ((Control_device_domain.destruct_events bufs).foldl Teardown_state.apply
        ⟨(Control_device_domain.construct bufs dn).ranges, false⟩).mapped
      = 0 ∧
    ∀ b ∈ bufs,
      Domain_event.remove_range ⟨b.dma_addr, b.size⟩
        ∈ Control_device_domain.destruct_events bufs := by
  refine ⟨?_, ?_, ?_, ?_⟩
  · intro hfreed
    by_cases hn :
        n ≤ ((bufs.map Dma_buffer.range).map Domain_event.remove_range).length
    · exfalso
      rw [destruct_events_eq, List.take_append_of_le_length hn,
        ← List.map_take] at hfreed
      rw [apply_remove_events_freed] at hfreed
      simp at hfreed
    · have hlen : (Control_device_domain.destruct_events bufs).length ≤ n := by
        rw [destruct_events_eq]
        simp only [List.length_append, List.length_map, List.length_cons,
          List.length_nil]
        push_neg at hn
        simp only [List.length_map] at hn
        omega
      rw [List.take_of_length_le hlen]
      rw [destruct_final_state bufs dn]
  · rw [destruct_final_state bufs dn]
  · rw [destruct_final_state bufs dn]
  · intro b hb
    rw [destruct_events_eq]
    exact List.mem_append_left _
      (List.mem_map_of_mem Domain_event.remove_range
        (List.mem_map_of_mem Dma_buffer.range hb))

/-- Witness for C3 at a concrete buffer registry. -/
theorem destruct_withdraws_ranges_before_release_witness :
    ((((Control_device_domain.destruct_events [⟨1, 4096, 32⟩]).take 2).foldl
        Teardown_state.apply
        ⟨(Control_device_domain.construct [⟨1, 4096, 32⟩] "d0").ranges,
         false⟩).mapped = 0) ∧
    Domain_event.remove_range ⟨4096, 32⟩
      ∈ Control_device_domain.destruct_events [⟨1, 4096, 32⟩] :=
  ⟨(destruct_withdraws_ranges_before_release [⟨1, 4096, 32⟩] "d0" 2).1
      (by decide),
   (destruct_withdraws_ranges_before_release [⟨1, 4096, 32⟩] "d0" 2).2.2.2
      ⟨1, 4096, 32⟩ (by decide)⟩

/-- Events of `Session_component::_free_dma_buffer` on a recognized
buffer. -/
inductive Free_event where
  | remove_from_domain (device_name : String) (r : Range)
  | release_memory
  | release_quota
  | remove_registry_entry
deriving DecidableEq, Repr

/-- Modelled from the spec: `Session_component::_free_dma_buffer` (declared
at header line 168; its body is in the session component's translation unit,
not under `src/`).  Per §4.3: "removes the range from every IOMMU Domain
first, then releases the underlying memory, then releases quota, then
removes the registry entry".  The domain walk is a `for_each` over the
session's domain registry. -/
def free_dma_buffer_events (domains : List Domain) (buf : Dma_buffer) :
    List Free_event :=
  domains.foldl
    (fun evs d =>
      evs ++ [Free_event.remove_from_domain d.device_name
        ⟨buf.dma_addr, buf.size⟩]) []
  ++ [Free_event.release_memory, Free_event.release_quota,
      Free_event.remove_registry_entry]

/-- Teardown phase an event belongs to; the claimed ordering is that
phases never decrease along the trace. -/
def Free_event.phase : Free_event → Nat
  | .remove_from_domain _ _ => 0
  | .release_memory => 1
  | .release_quota => 2
  | .remove_registry_entry => 3

lemma pairwise_of_forall {α : Type} {R : α → α → Prop}
    (h : ∀ a b, R a b) : ∀ l : List α, l.Pairwise R := by
  intro l
  induction l with
  | nil => exact List.Pairwise.nil
  | cons a t ih => exact List.Pairwise.cons (fun b _ => h a b) ih

lemma free_dma_buffer_events_eq (domains : List Domain) (buf : Dma_buffer) :
    free_dma_buffer_events domains buf
      = domains.map (fun d =>
            Free_event.remove_from_domain d.device_name
              ⟨buf.dma_addr, buf.size⟩)
        ++ [Free_event.release_memory, Free_event.release_quota,
            Free_event.remove_registry_entry] := by
  simp [free_dma_buffer_events, foldl_snoc_eq_map]

lemma free_dma_buffer_events_phase_pairwise
    (domains : List Domain) (buf : Dma_buffer) :
    (free_dma_buffer_events domains buf).Pairwise
      (fun a b => a.phase ≤ b.phase) := by
  rw [free_dma_buffer_events_eq]
  rw [List.pairwise_append]
  refine ⟨?_, by decide, ?_⟩
  · rw [List.pairwise_map]
    exact pairwise_of_forall (fun a b => Nat.le_refl 0) domains
  · intro a ha b hb
    rcases List.mem_map.mp ha with ⟨d, _, rfl⟩
    exact Nat.zero_le _

/-- C4: for a recognized buffer, `_free_dma_buffer` tears down in a fixed
order — every event removing the buffer's range from a session domain
precedes the memory release, which precedes the quota release, which
precedes the registry-entry removal (phases along the trace only increase),
and every domain of the session does get a removal event. -/
theorem free_dma_buffer_teardown_order (domains : List Domain)
    (buf : Dma_buffer) :
    (∀ d ∈ domains,
        Free_event.remove_from_domain d.device_name ⟨buf.dma_addr, buf.size⟩
          ∈ free_dma_buffer_events domains buf) ∧
    Free_event.release_memory ∈ free_dma_buffer_events domains buf ∧
    Free_event.release_quota ∈ free_dma_buffer_events domains buf ∧
    Free_event.remove_registry_entry ∈ free_dma_buffer_events domains buf ∧
    ∀ i j (hi : i < (free_dma_buffer_events domains buf).length)
        (hj : j < (free_dma_buffer_events domains buf).length),
      ((free_dma_buffer_events domains buf).get ⟨i, hi⟩).phase
          < ((free_dma_buffer_events domains buf).get ⟨j, hj⟩).phase →
        i < j := by
  refine ⟨?_, ?_, ?_, ?_, ?_⟩
  · intro d hd
    rw [free_dma_buffer_events_eq]
    exact List.mem_append_left _ (List.mem_map_of_mem _ hd)
  · rw [free_dma_buffer_events_eq]
    exact List.mem_append_right _ (by simp)
  · rw [free_dma_buffer_events_eq]
    exact List.mem_append_right _ (by simp)
  · rw [free_dma_buffer_events_eq]
    exact List.mem_append_right _ (by simp)
  · intro i j hi hj hlt
    have hp := free_dma_buffer_events_phase_pairwise domains buf
    rw [List.pairwise_iff_get] at hp
    by_contra hij
    push_neg at hij
    rcases Nat.lt_or_ge j i with hji | hji
    · exact absurd hlt (Nat.not_lt.mpr (hp ⟨j, hj⟩ ⟨i, hi⟩ hji))
    · have : i = j := Nat.le_antisymm hji hij
      subst this
      exact Nat.lt_irrefl _ hlt

/-- Witness for C4 at a concrete domain set and buffer. -/
theorem free_dma_buffer_teardown_order_witness :
    Free_event.release_memory
      ∈ free_dma_buffer_events [⟨"d0", 0⟩] ⟨1, 4096, 32⟩ ∧ (0 : Nat) < 1 :=
  ⟨(free_dma_buffer_teardown_order [⟨"d0", 0⟩] ⟨1, 4096, 32⟩).2.1,
   (free_dma_buffer_teardown_order [⟨"d0", 0⟩] ⟨1, 4096, 32⟩).2.2.2.2 0 1
     (by decide) (by decide) (by decide)⟩

/-- `Session_component::_with_device_domain` (header lines 170-185): walks
the domain registry with a flag that starts `false`; for every registered
domain whose `device_name()` equals `name` it invokes `match_fn` and sets
the flag; after the walk it invokes `nonmatch_fn` when the flag is still
`false`.  The two functionals are modelled as state transformers over an
arbitrary state type. -/
def with_device_domain {σ : Type} (domains : List Domain) (name : String)
    (match_fn : σ → Domain → σ) (nonmatch_fn : σ → σ) (init : σ) : σ :=
  let res := domains.foldl
    (fun acc d =>
      if d.device_name == name then (match_fn acc.1 d, true) else acc)
    (init, false)
  if res.2 then res.1 else nonmatch_fn res.1

lemma with_device_domain_foldl {σ : Type} (domains : List Domain)
    (name : String) (f : σ → Domain → σ) (acc : σ) (flag : Bool) :
    domains.foldl
        (fun acc d =>
          if d.device_name == name then (f acc.1 d, true) else acc)
        (acc, flag)
      = ((domains.filter (fun d => d.device_name == name)).foldl f acc,
         flag || domains.any (fun d => d.device_name == name)) := by
  induction domains generalizing acc flag with
  | nil => simp
  | cons d t ih =>
      by_cases h : d.device_name = name
      all_goals simp [h] at ih ⊢
      · exact (ih (f acc d)).2
      · have hb : (d.device_name == name) = false := by simp [h]
        rw [hb]
        cases flag with
        | false => simpa using (ih acc).1
        | true => simpa using (ih acc).2

/-- C8: `_with_device_domain` invokes `match_fn` once for each registered
domain whose `device_name` equals the given name, in registry order, and
invokes `nonmatch_fn` exactly when no registered domain has that name;
it never takes both branches. -/
theorem with_device_domain_spec {σ : Type} (domains : List Domain)
    (name : String) (match_fn : σ → Domain → σ) (nonmatch_fn : σ → σ)
    (init : σ) :
    with_device_domain domains name match_fn nonmatch_fn init =
      if domains.any (fun d => d.device_name == name)
      then (domains.filter (fun d => d.device_name == name)).foldl
        match_fn init
      else nonmatch_fn init := by
  unfold with_device_domain
  rw [with_device_domain_foldl]
  by_cases h : domains.any (fun d => d.device_name == name)
  · simp [h]
  · have h2 : domains.any (fun d => d.device_name == name) = false := by
      rw [Bool.eq_false_iff]
      exact h
    have hfil : domains.filter (fun d => d.device_name == name) = [] := by
      rw [List.filter_eq_nil_iff]
      intro a ha
      rw [List.any_eq_false] at h2
      exact h2 a ha
    simp [h2, hfil]

/-- `Dma_buffer` constructor (header lines 108-111): the element enrolls
itself in the session's buffer registry at construction time, with
`dma_addr` left at its default initializer `0`. -/
def Dma_buffer.construct (registry : List Dma_buffer) (cap size : Nat) :
    List Dma_buffer × Dma_buffer :=
  let buf : Dma_buffer := { cap := cap, dma_addr := 0, size := size }
  (registry ++ [buf], buf)

/-- Modelled from the spec: `Session_component::dma_addr` (declared at
header line 96; its body is in the session component's translation unit,
not under `src/`).  Per §4.3: "pure lookup; returns the sentinel zero if
not found" — the first registry entry whose capability matches determines
the returned bus address. -/
def dma_addr_lookup (bufs : List Dma_buffer) (cap : Nat) : Nat :=
  match bufs.find? (fun b => b.cap == cap) with
  | some b => b.dma_addr
  | none => 0

lemma find?_eq_none_of_not_mem {α β : Type} [BEq β] [LawfulBEq β]
    (f : α → β) (c : β) (l : List α) (h : c ∉ l.map f) :
    l.find? (fun x => f x == c) = none := by
  rw [List.find?_eq_none]
  intro x hx hbeq
  exact h (List.mem_map.mpr ⟨x, hx, eq_of_beq hbeq⟩)

lemma find?_append_left_none {α : Type} (p : α → Bool) (l₁ l₂ : List α)
    (h : l₁.find? p = none) : (l₁ ++ l₂).find? p = l₂.find? p := by
  rw [List.find?_append, h, Option.none_or]

/-- C9: a `Dma_buffer` is enrolled in the registry at construction with
`dma_addr` initialized to `0`; before a bus address is assigned, a
`dma_addr` lookup on its (fresh) capability returns the same sentinel `0`
as for an unknown capability, and a domain created at that moment receives
the range `{0, size}`. -/
theorem dma_buffer_enrolled_with_sentinel_addr (registry : List Dma_buffer)
    (cap size : Nat) (dn : String)
    (hfresh : cap ∉ registry.map Dma_buffer.cap) :
    (Dma_buffer.construct registry cap size).2.dma_addr = 0 ∧
    (Dma_buffer.construct registry cap size).2
      ∈ (Dma_buffer.construct registry cap size).1 ∧
    dma_addr_lookup (Dma_buffer.construct registry cap size).1 cap = 0 ∧
    dma_addr_lookup registry cap = 0 ∧
    (⟨0, size⟩ : Range)
      ∈ (Control_device_domain.construct
          (Dma_buffer.construct registry cap size).1 dn).ranges := by
  have hnone : registry.find? (fun b => b.cap == cap) = none :=
    find?_eq_none_of_not_mem Dma_buffer.cap cap registry hfresh
  refine ⟨rfl, ?_, ?_, ?_, ?_⟩
  · simp [Dma_buffer.construct]
  · unfold dma_addr_lookup Dma_buffer.construct
    rw [find?_append_left_none _ _ _ hnone]
    simp
  · unfold dma_addr_lookup
    rw [hnone]
  · rw [construct_ranges]
    have : ({ cap := cap, dma_addr := 0, size := size } : Dma_buffer)
        ∈ (Dma_buffer.construct registry cap size).1 := by
      simp [Dma_buffer.construct]
    have hm : (⟨0, size⟩ : Range)
        ∈ ((Dma_buffer.construct registry cap size).1).map
            Dma_buffer.range := by
      exact List.mem_map.mpr
        ⟨{ cap := cap, dma_addr := 0, size := size }, this, rfl⟩
    exact Multiset.mem_coe.mpr hm

/-- Witness for C9 at a concrete registry. -/
theorem dma_buffer_enrolled_with_sentinel_addr_witness :
    (7 : Nat) ∉ ([] : List Dma_buffer).map Dma_buffer.cap ∧
    dma_addr_lookup (Dma_buffer.construct [] 7 16).1 7 = 0 :=
  ⟨by decide,
   (dma_buffer_enrolled_with_sentinel_addr [] 7 16 "d0" (by decide)).2.2.1⟩

/-- A device of the shared device model (`Device_model`): identified by a
name, optionally member of an IOMMU translation-domain group, and owned by
at most one session at a time — ownership is an owner-identity field on the
device itself (`Device::Owner`, compared by identity; the session's
`_owner_id` is modelled as the session id). -/
structure Device where
  name : String
  domain_name : Option String
  owner : Option Nat
deriving DecidableEq, Repr

/-- Per-session state of `Driver::Session_component`: the owner identity
`_owner_id` (as the session id), the construction-time `_iommu` flag, the
policy-controlled `_info` flag and `_version`, the RAM quota guard
(used/limit), a fresh-capability counter, the `_device_registry` (device
capability, device name), the `_buffer_registry` and the
`_domain_registry`. -/
structure Session_component where
  sid : Nat
  iommu : Bool
  info : Bool
  version : String
  ram_used : Nat
  ram_limit : Nat
  next_cap : Nat
  device_caps : List (Nat × String)
  buffer_registry : List Dma_buffer
  domain_registry : List Domain
deriving DecidableEq

/-- Result of `acquire_device`. -/
inductive Acquire_result where
  | ok (cap : Nat)
  | not_found
  | already_owned
deriving DecidableEq, Repr

/-- Modelled from the spec: `Session_component::acquire_device` (declared at
header line 91; its body is in the session component's translation unit, not
under `src/`).  Per §4.2: look up the device by name; fail if another
session owns it; on success mark the device owned by this session's owner
identity, record a fresh capability handle in the device registry and — if
the device belongs to an IOMMU domain and translation is required — lazily
create that domain, seeded with the current buffer registry (§4.4). -/
def Session_component.acquire_device (s : Session_component)
    (devs : List Device) (name : String) :
    Acquire_result × Session_component × List Device :=
  match devs.find? (fun d => d.name == name) with
  | none => (.not_found, s, devs)
  | some d =>
    if d.owner.isSome then (.already_owned, s, devs)
    else
      let cap := s.next_cap
      let s1 := { s with next_cap := cap + 1,
                         device_caps := s.device_caps ++ [(cap, name)] }
      let s2 :=
        match d.domain_name with
        | some dn =>
          if s1.iommu
              && (s1.domain_registry.find?
                  (fun dom => dom.device_name == dn)).isNone
          then { s1 with domain_registry := s1.domain_registry
                  ++ [Control_device_domain.construct s1.buffer_registry dn] }
          else s1
        | none => s1
      (.ok cap, s2,
       devs.map (fun e =>
         if e.name == name then { e with owner := some s.sid } else e))

/-- Modelled from the spec: `Session_component::release_device` (declared at
header line 93; its body is in the session component's translation unit, not
under `src/`).  Per §4.2: idempotent against an unknown/foreign handle
(no-op); on a valid handle unmark ownership and destroy the device's IOMMU
domain when no still-owned device references it any more. -/
def Session_component.release_device (s : Session_component)
    (devs : List Device) (cap : Nat) :
    Session_component × List Device :=
  match s.device_caps.find? (fun e => e.1 == cap) with
  | none => (s, devs)
  | some entry =>
    let name := entry.2
    let s1 := { s with
                device_caps := s.device_caps.filter (fun e => e.1 != cap) }
    let devs1 := devs.map (fun d =>
      if d.name == name && d.owner == some s.sid
      then { d with owner := none } else d)
    match (devs.find? (fun d => d.name == name)).bind Device.domain_name with
    | none => (s1, devs1)
    | some dn =>
      let still := s1.device_caps.any (fun e =>
        match devs1.find? (fun d => d.name == e.2) with
        | some d => d.domain_name == some dn
        | none => false)
      if still then (s1, devs1)
      else
        ({ s1 with domain_registry :=
             s1.domain_registry.filter (fun dom => dom.device_name != dn) },
         devs1)

/-- Insert a range into the first `k` domains of the registry (the prefix a
partially failed `alloc_dma_buffer` has already walked). -/
def add_range_upto (r : Range) : List Domain → Nat → List Domain
  | [], _ => []
  | ds, 0 => ds
  | d :: ds, k + 1 => d.add_range r :: add_range_upto r ds k

/-- Withdraw a range from the first `k` domains of the registry (the
rollback of a partially failed `alloc_dma_buffer`). -/
def remove_range_upto (r : Range) : List Domain → Nat → List Domain
  | [], _ => []
  | ds, 0 => ds
  | d :: ds, k + 1 => d.remove_range r :: remove_range_upto r ds k

/-- Result of `alloc_dma_buffer`. -/
inductive Alloc_result where
  | ok (cap : Nat)
  | quota_exceeded
  | out_of_memory
deriving DecidableEq, Repr

/-- Modelled from the spec: `Session_component::alloc_dma_buffer` (declared
at header line 94; its body is in the session component's translation unit,
not under `src/`).  Per §4.3: reserve quota for the size, allocate
physically-contiguous memory, record a new DMA buffer with its resolved bus
address, and add the new range to every existing domain; failure at any step
rolls back the quota reservation and any partial domain insertion already
performed.  The external allocator is an oracle: `bus_addr` is the address
it resolves, `alloc_fails` injects allocator exhaustion, and
`insert_fail_at` injects a failure while inserting into the domain with the
given registry index. -/
def Session_component.alloc_dma_buffer (s : Session_component)
    (size bus_addr : Nat) (alloc_fails : Bool)
    (insert_fail_at : Option Nat) : Alloc_result × Session_component :=
  if s.ram_used + size > s.ram_limit then (.quota_exceeded, s)
  else
    let reserved := { s with ram_used := s.ram_used + size }
    if alloc_fails then
      (.out_of_memory, { reserved with ram_used := reserved.ram_used - size })
    else
      let r : Range := ⟨bus_addr, size⟩
      let fail_idx := insert_fail_at.getD reserved.domain_registry.length
      if fail_idx < reserved.domain_registry.length then
        let walked := add_range_upto r reserved.domain_registry fail_idx
        (.out_of_memory,
         { reserved with
             domain_registry := remove_range_upto r walked fail_idx,
             ram_used := reserved.ram_used - size })
      else
        (.ok s.next_cap,
         { reserved with
             next_cap := s.next_cap + 1,
             buffer_registry := reserved.buffer_registry
               ++ [⟨s.next_cap, bus_addr, size⟩],
             domain_registry := reserved.domain_registry.map
               (fun d => d.add_range r) })

/-- Modelled from the spec: `Session_component::free_dma_buffer` /
`_free_dma_buffer` (declared at header lines 95 and 168; bodies in the
session component's translation unit, not under `src/`).  Per §4.3: no-op
if the handle is not recognized as belonging to this session; otherwise the
net effect of the ordered teardown `free_dma_buffer_events` — the range is
withdrawn from every domain, the memory and quota are released, and the
registry entry is removed. -/
def Session_component.free_dma_buffer (s : Session_component) (cap : Nat) :
    Session_component :=
  match s.buffer_registry.find? (fun b => b.cap == cap) with
  | none => s
  | some buf =>
    { s with
        domain_registry := s.domain_registry.map
          (fun d => d.remove_range ⟨buf.dma_addr, buf.size⟩),
        ram_used := s.ram_used - buf.size,
        buffer_registry := s.buffer_registry.filter
          (fun b => b.cap != cap) }

/-- Modelled from the spec: `Session_component::dma_addr` (declared at
header line 96): pure lookup in the session's buffer registry, returned
together with the (unchanged) session state. -/
def Session_component.dma_addr (s : Session_component) (cap : Nat) :
    Nat × Session_component :=
  (dma_addr_lookup s.buffer_registry cap, s)

/-- Modelled from the spec: `Session_component::update_policy` (declared at
header line 73; its body is in the session component's translation unit,
not under `src/`).  Per §4.5 it updates the `info` flag and the policy
version (and invalidates the status report, which lives in the external
transport, not in this state). -/
def Session_component.update_policy (s : Session_component) (info : Bool)
    (version : String) : Session_component :=
  { s with info := info, version := version }

/-- A client-visible mutating operation on one session. -/
inductive Op where
  | acquire (name : String)
  | release (cap : Nat)
  | alloc (size bus_addr : Nat) (alloc_fails : Bool)
      (insert_fail_at : Option Nat)
  | free (cap : Nat)
  | update (info : Bool) (version : String)
deriving DecidableEq, Repr

/-- One step of the session: dispatch an operation against the session's
state and the shared device model. -/
def step (s : Session_component) (devs : List Device) :
    Op → Session_component × List Device
  | .acquire name => (s.acquire_device devs name).2
  | .release cap => s.release_device devs cap
  | .alloc size bus_addr af ifa =>
      ((s.alloc_dma_buffer size bus_addr af ifa).2, devs)
  | .free cap => (s.free_dma_buffer cap, devs)
  | .update i v => (s.update_policy i v, devs)

lemma find?_of_pairwise_key {α β : Type} [BEq β] [LawfulBEq β]
    (f : α → β) (l : List α) (c : β) (b : α)
    (hp : l.Pairwise (fun x y => f x ≠ f y)) (hb : b ∈ l) (hc : f b = c) :
    l.find? (fun x => f x == c) = some b := by
  induction l with
  | nil => cases hb
  | cons h t ih =>
      rw [List.pairwise_cons] at hp
      rcases List.mem_cons.mp hb with rfl | hbt
      · exact List.find?_cons_of_pos _ (by simp [hc])
      · have hne : f h ≠ c := fun hh => hp.1 b hbt (hh.trans hc.symm)
        rw [List.find?_cons_of_neg _ (by simp [hne])]
        exact ih hp.2 hbt

/-- C7: `dma_addr` is a pure lookup — it leaves the session unchanged,
returns the bus address recorded in the buffer registry for the given
capability (the registry holding pairwise-distinct capabilities), and
returns the sentinel `0` when the capability is not found. -/
theorem dma_addr_pure_lookup (s : Session_component) (cap : Nat) :
    (s.dma_addr cap).2 = s ∧
    (cap ∉ s.buffer_registry.map Dma_buffer.cap → (s.dma_addr cap).1 = 0) ∧
    (s.buffer_registry.Pairwise (fun a b => a.cap ≠ b.cap) →
      ∀ b ∈ s.buffer_registry, b.cap = cap →
        (s.dma_addr cap).1 = b.dma_addr) := by
  refine ⟨rfl, ?_, ?_⟩
  · intro h
    have hn := find?_eq_none_of_not_mem Dma_buffer.cap cap s.buffer_registry h
    simp [Session_component.dma_addr, dma_addr_lookup, hn]
  · intro hp b hb hc
    have hs := find?_of_pairwise_key Dma_buffer.cap s.buffer_registry cap b
      hp hb hc
    simp [Session_component.dma_addr, dma_addr_lookup, hs]

/-- Witness for C7 at a concrete session. -/
theorem dma_addr_pure_lookup_witness :
    ((⟨1, true, false, "v1", 16, 64, 1, [], [⟨5, 4096, 16⟩], []⟩ :
        Session_component).dma_addr 5).1 = 4096 :=
  (dma_addr_pure_lookup
      ⟨1, true, false, "v1", 16, 64, 1, [], [⟨5, 4096, 16⟩], []⟩ 5).2.2
    (by simp) ⟨5, 4096, 16⟩ (by simp) rfl

/-- C1: a device is owned by at most one session's owner identity at a
time — `acquire_device` fails with `ALREADY_OWNED` (and changes nothing)
whenever the looked-up device is already owned, and only a successful
acquire marks the device owned, setting its owner to the acquiring
session's identity while leaving all other devices untouched. -/
theorem acquire_device_exclusive (s : Session_component)
    (devs : List Device) (name : String) :
    (∀ d, devs.find? (fun e => e.name == name) = some d → d.owner.isSome →
      s.acquire_device devs name = (.already_owned, s, devs)) ∧
    (∀ cap s2 devs2,
      s.acquire_device devs name = (.ok cap, s2, devs2) →
        (∃ d0, devs.find? (fun e => e.name == name) = some d0 ∧
          d0.owner = none) ∧
        (∀ e ∈ devs2, e.name = name → e.owner = some s.sid) ∧
        (∀ e ∈ devs2, e.name ≠ name → e ∈ devs)) ∧
    (∀ e ∈ devs, ∀ a b : Nat, e.owner = some a → e.owner = some b →
      a = b) := by
  refine ⟨?_, ?_, ?_⟩
  · intro d hf hown
    unfold Session_component.acquire_device
    rw [hf]
    simp [hown]
  · intro cap s2 devs2 heq
    unfold Session_component.acquire_device at heq
    cases hf : devs.find? (fun e => e.name == name) with
    | none =>
        rw [hf] at heq
        simp at heq
    | some d0 =>
        rw [hf] at heq
        by_cases hown : d0.owner.isSome
        · simp [hown] at heq
        · simp only [hown, Bool.false_eq_true, if_false, ite_false] at heq
          have hdevs2 : devs2
              = devs.map (fun e =>
                  if e.name == name then { e with owner := some s.sid }
                  else e) := by
            have := congrArg (fun p => p.2.2) heq
            simpa using this.symm
          refine ⟨⟨d0, rfl, Option.not_isSome_iff_eq_none.mp hown⟩, ?_, ?_⟩
          · intro e he hname
            rw [hdevs2] at he
            rcases List.mem_map.mp he with ⟨x, hx, rfl⟩
            by_cases hxn : x.name = name
            · simp [hxn]
            · simp [hxn] at hname
          · intro e he hname
            rw [hdevs2] at he
            rcases List.mem_map.mp he with ⟨x, hx, rfl⟩
            by_cases hxn : x.name = name
            · exfalso
              apply hname
              simp [hxn]
            · simp [hxn]
              exact hx
  · intro e _ a b ha hb
    rw [ha] at hb
    exact Option.some.inj hb

/-- Witness for C1: a device owned by session 1 cannot be acquired by a
session with owner identity 2. -/
theorem acquire_device_exclusive_witness :
    (⟨2, true, false, "v1", 0, 64, 0, [], [], []⟩ :
        Session_component).acquire_device
      [⟨"uart0", some "d0", some 1⟩] "uart0"
      = (.already_owned, ⟨2, true, false, "v1", 0, 64, 0, [], [], []⟩,
         [⟨"uart0", some "d0", some 1⟩]) :=
  (acquire_device_exclusive ⟨2, true, false, "v1", 0, 64, 0, [], [], []⟩
      [⟨"uart0", some "d0", some 1⟩] "uart0").1
    ⟨"uart0", some "d0", some 1⟩ (by simp) (by simp)

lemma add_remove_range_cancel (d : Domain) (r : Range) :
    (d.add_range r).remove_range r = d := by
  cases d with
  | mk dn rs => simp [Domain.add_range, Domain.remove_range]

lemma remove_add_range_upto (r : Range) :
    ∀ (ds : List Domain) (k : Nat),
      remove_range_upto r (add_range_upto r ds k) k = ds := by
  intro ds
  induction ds with
  | nil => intro k; cases k <;> rfl
  | cons d t ih =>
      intro k
      cases k with
      | zero => rfl
      | succ k =>
          show (d.add_range r).remove_range r
              :: remove_range_upto r (add_range_upto r t k) k = d :: t
          rw [add_remove_range_cancel, ih k]

lemma session_restore_ram (s : Session_component) (size : Nat) :
    ({ s with ram_used := s.ram_used + size - size } : Session_component)
      = s := by
  cases s
  simp

/-- C5: `alloc_dma_buffer` is atomic on failure — when quota reservation
fails it returns `QUOTA_EXCEEDED` with the session unchanged, and when the
allocation or a domain insertion fails, the quota reservation and every
partial domain insertion already performed are rolled back, leaving the
session exactly as before the call. -/
theorem alloc_dma_buffer_atomic_on_failure (s : Session_component)
    (size bus_addr : Nat) (alloc_fails : Bool)
    (insert_fail_at : Option Nat) :
    (s.ram_used + size > s.ram_limit →
      s.alloc_dma_buffer size bus_addr alloc_fails insert_fail_at
        = (.quota_exceeded, s)) ∧
    (∀ res s2,
      s.alloc_dma_buffer size bus_addr alloc_fails insert_fail_at
          = (res, s2) →
        (res = .quota_exceeded ∨ res = .out_of_memory) → s2 = s) := by
  constructor
  · intro h
    unfold Session_component.alloc_dma_buffer
    rw [if_pos h]
  · intro res s2 heq hfail
    unfold Session_component.alloc_dma_buffer at heq
    by_cases hq : s.ram_used + size > s.ram_limit
    · rw [if_pos hq] at heq
      exact (show s = s2 by simpa using congrArg Prod.snd heq).symm
    · rw [if_neg hq] at heq
      by_cases haf : alloc_fails = true
      · rw [haf] at heq
        simp only [if_true, ite_true] at heq
        have h2 : s2 = { s with ram_used := s.ram_used + size - size } := by
          have := congrArg (fun p => p.2) heq
          simpa using this.symm
        rw [h2, session_restore_ram]
      · rw [Bool.not_eq_true] at haf
        rw [haf] at heq
        simp only [Bool.false_eq_true, if_false, ite_false] at heq
        by_cases hidx :
            insert_fail_at.getD s.domain_registry.length
              < s.domain_registry.length
        · rw [if_pos hidx] at heq
          have h2 : s2 = { s with
              ram_used := s.ram_used + size - size,
              domain_registry := remove_range_upto ⟨bus_addr, size⟩
                (add_range_upto ⟨bus_addr, size⟩ s.domain_registry
                  (insert_fail_at.getD s.domain_registry.length))
                (insert_fail_at.getD s.domain_registry.length) } := by
            have := congrArg (fun p => p.2) heq
            simpa using this.symm
          rw [h2, remove_add_range_upto]
          cases s
          simp
        · rw [if_neg hidx] at heq
          have := congrArg (fun p => p.1) heq
          simp at this
          rw [← this] at hfail
          rcases hfail with h | h <;> exact Alloc_result.noConfusion h
  
/-- Witness for C5: a 100 KiB request against a 64 KiB quota yields
`QUOTA_EXCEEDED` and an unchanged session. -/
theorem alloc_dma_buffer_atomic_on_failure_witness :
    (⟨1, true, false, "v1", 0, 65536, 0, [], [], []⟩ :
        Session_component).alloc_dma_buffer 102400 0 false none
      = (.quota_exceeded,
         ⟨1, true, false, "v1", 0, 65536, 0, [], [], []⟩) :=
  (alloc_dma_buffer_atomic_on_failure
      ⟨1, true, false, "v1", 0, 65536, 0, [], [], []⟩ 102400 0 false none).1
    (by decide)

lemma find?_filter_bne_none {α β : Type} [BEq β] [LawfulBEq β]
    (f : α → β) (c : β) (l : List α) :
    (l.filter (fun x => f x != c)).find? (fun x => f x == c) = none := by
  rw [List.find?_eq_none]
  intro x hx
  have hq := List.of_mem_filter hx
  simp only [bne_iff_ne, ne_eq] at hq
  simp only [beq_iff_eq]
  exact hq

lemma free_dma_buffer_not_found (s : Session_component) (cap : Nat)
    (h : s.buffer_registry.find? (fun b => b.cap == cap) = none) :
    s.free_dma_buffer cap = s := by
  unfold Session_component.free_dma_buffer
  rw [h]

lemma release_device_not_found (s : Session_component) (devs : List Device)
    (cap : Nat)
    (h : s.device_caps.find? (fun e => e.1 == cap) = none) :
    s.release_device devs cap = (s, devs) := by
  unfold Session_component.release_device
  rw [h]

lemma release_device_caps_filtered (s : Session_component)
    (devs : List Device) (cap : Nat) (entry : Nat × String)
    (h : s.device_caps.find? (fun e => e.1 == cap) = some entry) :
    (s.release_device devs cap).1.device_caps
      = s.device_caps.filter (fun e => e.1 != cap) := by
  unfold Session_component.release_device
  rw [h]
  dsimp only
  cases hdn : (devs.find? (fun d => d.name == entry.2)).bind
      Device.domain_name with
  | none => rfl
  | some dn =>
      dsimp only
      split <;> rfl

/-- C6: `release_device` and `free_dma_buffer` are no-ops (not errors) on
an unrecognized handle, and calling either twice on the same handle leaves
the session state unchanged on the second call. -/
theorem release_and_free_idempotent (s : Session_component)
    (devs : List Device) (cap : Nat) :
    (cap ∉ s.buffer_registry.map Dma_buffer.cap →
      s.free_dma_buffer cap = s) ∧
    (s.free_dma_buffer cap).free_dma_buffer cap = s.free_dma_buffer cap ∧
    (cap ∉ s.device_caps.map Prod.fst →
      s.release_device devs cap = (s, devs)) ∧
    (s.release_device devs cap).1.release_device
        (s.release_device devs cap).2 cap
      = s.release_device devs cap := by
  refine ⟨?_, ?_, ?_, ?_⟩
  · intro h
    exact free_dma_buffer_not_found s cap
      (find?_eq_none_of_not_mem Dma_buffer.cap cap _ h)
  · cases hf : s.buffer_registry.find? (fun b => b.cap == cap) with
    | none =>
        rw [free_dma_buffer_not_found s cap hf]
        exact free_dma_buffer_not_found s cap hf
    | some buf =>
        have h1 : s.free_dma_buffer cap
            = { s with
                domain_registry := s.domain_registry.map
                  (fun d => d.remove_range ⟨buf.dma_addr, buf.size⟩),
                ram_used := s.ram_used - buf.size,
                buffer_registry := s.buffer_registry.filter
                  (fun b => b.cap != cap) } := by
          unfold Session_component.free_dma_buffer
          rw [hf]
        rw [h1]
        apply free_dma_buffer_not_found
        exact find?_filter_bne_none Dma_buffer.cap cap s.buffer_registry
  · intro h
    exact release_device_not_found s devs cap
      (find?_eq_none_of_not_mem Prod.fst cap _ h)
  · cases hf : s.device_caps.find? (fun e => e.1 == cap) with
    | none =>
        rw [release_device_not_found s devs cap hf]
        exact release_device_not_found s devs cap hf
    | some entry =>
        have hcaps := release_device_caps_filtered s devs cap entry hf
        have hnone : (s.release_device devs cap).1.device_caps.find?
            (fun e => e.1 == cap) = none := by
          rw [hcaps]
          exact find?_filter_bne_none Prod.fst cap s.device_caps
        have := release_device_not_found (s.release_device devs cap).1
          (s.release_device devs cap).2 cap hnone
        rw [this]

/-- Witness for C6: freeing an unknown handle on a concrete session is a
no-op. -/
theorem release_and_free_idempotent_witness :
    (⟨1, true, false, "v1", 0, 65536, 0, [], [], []⟩ :
        Session_component).free_dma_buffer 9
      = ⟨1, true, false, "v1", 0, 65536, 0, [], [], []⟩ :=
  (release_and_free_idempotent
      ⟨1, true, false, "v1", 0, 65536, 0, [], [], []⟩ [] 9).1 (by decide)

/-- C10: the session's IOMMU-required flag is fixed for the session's whole
lifetime — no operation of the session (`acquire_device`, `release_device`,
`alloc_dma_buffer`, `free_dma_buffer`, `update_policy`) changes it, and
`update_policy` updates only the `info` flag and the policy version,
leaving every other session field unchanged. -/
theorem iommu_flag_immutable (s : Session_component) (devs : List Device)
    (op : Op) (i : Bool) (v : String) :
    (step s devs op).1.iommu = s.iommu ∧
    (s.update_policy i v).info = i ∧
    (s.update_policy i v).version = v ∧
    (s.update_policy i v).iommu = s.iommu ∧
    (s.update_policy i v).sid = s.sid ∧
    (s.update_policy i v).ram_used = s.ram_used ∧
    (s.update_policy i v).ram_limit = s.ram_limit ∧
    (s.update_policy i v).next_cap = s.next_cap ∧
    (s.update_policy i v).device_caps = s.device_caps ∧
    (s.update_policy i v).buffer_registry = s.buffer_registry ∧
    (s.update_policy i v).domain_registry = s.domain_registry := by
  refine ⟨?_, rfl, rfl, rfl, rfl, rfl, rfl, rfl, rfl, rfl, rfl⟩
  cases op with
  | acquire name =>
      simp only [step]
      unfold Session_component.acquire_device
      repeat' split
      all_goals dsimp only
      all_goals repeat' split
      all_goals rfl
  | release cap =>
      simp only [step]
      unfold Session_component.release_device
      repeat' split
      all_goals dsimp only
      all_goals repeat' split
      all_goals rfl
  | alloc size bus_addr af ifa =>
      simp only [step]
      unfold Session_component.alloc_dma_buffer
      repeat' split
      all_goals dsimp only
      all_goals repeat' split
      all_goals rfl
  | free cap =>
      simp only [step]
      unfold Session_component.free_dma_buffer
      repeat' split
      all_goals rfl
  | update i2 v2 =>
      simp only [step]
      rfl
